import Mathlib

/-!
Verification of the it-ops-agent repository against its natural-language
specification.  Python strings are modelled as `List Char`; Python's
`str.lower` is modelled by `Char.toLower` (the commands and scripts involved
are ASCII); stateful collaborators (subprocess, the LLM, the JSON parser,
the vector collection) are modelled as explicit oracle parameters, so every
function here is a pure, executable translation of the corresponding Python
function.
-/

namespace ITOps

/-- Coerce a Lean string literal to the `List Char` representation used
throughout this development. -/
def S (s : String) : List Char := s.data

/-- Model of Python's `str(n)` for a natural number. -/
def natStr (n : Nat) : List Char := (Nat.repr n).data

/-- The whitespace characters matched by Python's `\s` (ASCII fragment)
and by `str.strip`/`str.isspace`. -/
def isWs (c : Char) : Bool :=
  c = ' ' || c = '\t' || c = '\n' || c = '\r' || c = '\x0b' || c = '\x0c'

/-- The characters matched by Python's `\w` (ASCII fragment). -/
def isWord (c : Char) : Bool :=
  ('a' ≤ c && c ≤ 'z') || ('A' ≤ c && c ≤ 'Z') || ('0' ≤ c && c ≤ '9') || c = '_'

/-- Model of Python's `str.lower` (ASCII). -/
def lowerStr (s : List Char) : List Char := s.map Char.toLower

/-- Model of Python's `str.strip()`. -/
def stripPy (s : List Char) : List Char :=
  ((s.dropWhile isWs).reverse.dropWhile isWs).reverse

/-- `isPre p l` is true when `p` is an initial segment of `l`. -/
def isPre : List Char → List Char → Bool
  | [], _ => true
  | _ :: _, [] => false
  | p :: ps, c :: cs => p == c && isPre ps cs

/-- Model of Python's substring test `pat in s`. -/
def containsSub (pat : List Char) : List Char → Bool
  | [] => pat.isEmpty
  | c :: cs => isPre pat (c :: cs) || containsSub pat cs

/-- Substring containment as a proposition: `pat` occurs contiguously in `s`. -/
def isSubstr (pat s : List Char) : Prop := ∃ a b, s = a ++ pat ++ b

/-- Run a pattern matcher at every suffix of the input, the way `re.search`
tries every start position. -/
def search (m : List Char → Bool) : List Char → Bool
  | [] => m []
  | c :: cs => m (c :: cs) || search m cs

/-! ### Regex-fragment matchers

The Python sources use `re.search` with a handful of fixed patterns built
from literal characters, `\s+`, `\w+` and `.*`.  Each pattern is translated
into an anchored matcher (`...At`, true when the pattern matches at the
start of the input) and searched with `search`.  `wsPlus k` implements
`\s+` followed by the continuation `k`; `wordPlus k` implements `\w+`
followed by `k`; `scanNoNl k` implements `.*` followed by `k` (`.` does not
match a newline). -/

/-- `\s+` then the continuation `k`. -/
def wsPlus (k : List Char → Bool) : List Char → Bool
  | [] => false
  | c :: cs => isWs c && (k cs || wsPlus k cs)

/-- `\w+` then the continuation `k`. -/
def wordPlus (k : List Char → Bool) : List Char → Bool
  | [] => false
  | c :: cs => isWord c && (k cs || wordPlus k cs)

/-- `.*` then the continuation `k` (a `.` never matches a newline). -/
def scanNoNl (k : List Char → Bool) : List Char → Bool
  | [] => k []
  | c :: cs => k (c :: cs) || (!(c = '\n') && scanNoNl k cs)

/-- Anchored matcher for the literal `-rf`. -/
def dashRfAt : List Char → Bool
  | '-' :: 'r' :: 'f' :: _ => true
  | _ => false

/-- Anchored matcher for `rm\s+-rf`. -/
def rmRfAt : List Char → Bool
  | 'r' :: 'm' :: rest => wsPlus dashRfAt rest
  | _ => false

/-- Anchored matcher for the literal `--force`. -/
def dashForceAt : List Char → Bool
  | '-' :: '-' :: 'f' :: 'o' :: 'r' :: 'c' :: 'e' :: _ => true
  | _ => false

/-- Anchored matcher for `delete.*--force`. -/
def deleteForceAt : List Char → Bool
  | 'd' :: 'e' :: 'l' :: 'e' :: 't' :: 'e' :: rest => scanNoNl dashForceAt rest
  | _ => false

/-- Anchored matcher for `terminate.*--force`. -/
def terminateForceAt : List Char → Bool
  | 't' :: 'e' :: 'r' :: 'm' :: 'i' :: 'n' :: 'a' :: 't' :: 'e' :: rest =>
    scanNoNl dashForceAt rest
  | _ => false

/-- Anchored matcher for `/f\s+/s` (the tail of `del\s+/f\s+/s`). -/
def slashFslashSAt : List Char → Bool
  | '/' :: 'f' :: rest =>
    wsPlus (fun l => match l with | '/' :: 's' :: _ => true | _ => false) rest
  | _ => false

/-- Anchored matcher for `del\s+/f\s+/s`. -/
def delFSAt : List Char → Bool
  | 'd' :: 'e' :: 'l' :: rest => wsPlus slashFslashSAt rest
  | _ => false

/-- Anchored matcher for `format\s+`. -/
def formatWsAt : List Char → Bool
  | 'f' :: 'o' :: 'r' :: 'm' :: 'a' :: 't' :: c :: _ => isWs c
  | _ => false

/-- Anchored matcher for `drop\s+database`. -/
def dropDatabaseAt : List Char → Bool
  | 'd' :: 'r' :: 'o' :: 'p' :: rest => wsPlus (isPre (S "database")) rest
  | _ => false

/-- Anchored matcher for the literal `shutdown`. -/
def shutdownAt : List Char → Bool := isPre (S "shutdown")

/-- Anchored matcher for `\{(\w+)\}`. -/
def bracePlaceholderAt : List Char → Bool
  | '{' :: rest =>
    wordPlus (fun l => match l with | '}' :: _ => true | _ => false) rest
  | _ => false

/-- Anchored matcher for `\$(\w+)`. -/
def dollarPlaceholderAt : List Char → Bool
  | '$' :: c :: _ => isWord c
  | _ => false

/-- Anchored matcher for `\%(\w+)\%`. -/
def percentPlaceholderAt : List Char → Bool
  | '%' :: rest =>
    wordPlus (fun l => match l with | '%' :: _ => true | _ => false) rest
  | _ => false

/-- Model of Python's `str(i)` for an integer. -/
def intStr (i : Int) : List Char := (toString i).data

/-! ### Script executors (`aws_executor.py`, `system_executor.py`) -/

/-- A Python argument that is expected to be a string: either an actual
string or a value of some other type (rejected by `isinstance` checks). -/
inductive PyStrArg where
  | pystr (s : List Char)
  | nonStr
deriving DecidableEq, Repr

/-- The `output` field of an execution result: the raw stdout string, or
the value parsed from it by `json.loads` (kept abstract as the raw text it
was parsed from). -/
inductive OutVal where
  | ostr (s : List Char)
  | ojson (raw : List Char)
deriving DecidableEq, Repr

/-- Result dictionary returned by `AWSExecutor.execute` and
`SystemExecutor.execute`.  `error_type` is `none` for the result shapes
that carry no `error_type` key (the dry-run and success dictionaries). -/
structure ExecResult where
  success : Bool
  output : OutVal
  error : Option (List Char)
  exit_code : Option Int
  error_type : Option (List Char)
deriving DecidableEq, Repr

/-- Oracle for one `subprocess.run` call: it completed with an exit code
and captured streams, expired the timeout, raised the repo's custom
`PermissionError` (carrying `e.message`), or raised some other exception
(carrying `str(e)`). -/
inductive SubprocOutcome where
  | completed (exit_code : Int) (stdout stderr : List Char)
  | timedOut
  | raisedPermission (msg : List Char)
  | raisedOther (msg : List Char)
deriving DecidableEq, Repr

namespace AWSExecutor

/-- The `re.search` checks of the three `dangerous_patterns` of
`AWSExecutor.validate_command`, run on the lowered, stripped command. -/
def dangerousMatch (low : List Char) : Bool :=
  search rmRfAt low || search deleteForceAt low || search terminateForceAt low

/-- `AWSExecutor.validate_command` (aws_executor.py:203).  `allowed` is the
configured `allowed_commands` policy string. -/
def validate_command (allowed : List Char) (command : PyStrArg) : Bool :=
  match command with
  | .nonStr => false
  | .pystr s =>
    if s = [] then false
    else
      let command_lower := stripPy (lowerStr s)
      if dangerousMatch command_lower && allowed = S "restricted" then false
      else true

/-- `AWSExecutor.execute` (aws_executor.py:36).  `parseOk` is the oracle
for whether `json.loads` accepts the captured stdout; `outcome` is the
oracle for the `subprocess.run` call. -/
def execute (allowed : List Char) (command : List Char) (dry_run : Bool)
    (timeout : Int) (parseOk : List Char → Bool) (outcome : SubprocOutcome) :
    ExecResult :=
  if validate_command allowed (.pystr command) = false then
    { success := false, output := .ostr [],
      error := some (S "Invalid AWS command"),
      exit_code := none, error_type := some (S "validation_error") }
  else if dry_run then
    { success := true,
      output := .ostr (S "[DRY RUN] Would execute: " ++ command),
      error := none, exit_code := some 0, error_type := none }
  else
    match outcome with
    | .completed code out err =>
      let output :=
        if (stripPy out).isEmpty = false && parseOk out then OutVal.ojson out
        else OutVal.ostr out
      if code ≠ 0 then
        let error_output := if err ≠ [] then err else out
        let errLow := lowerStr error_output
        if containsSub (S "access denied") errLow ||
            containsSub (S "unauthorized") errLow ||
            containsSub (S "forbidden") errLow then
          { success := false, output := .ostr [],
            error := some (S "AWS permission denied: " ++ error_output),
            exit_code := some code, error_type := some (S "permission_error") }
        else if containsSub (S "network") errLow ||
            containsSub (S "connection") errLow ||
            containsSub (S "timeout") errLow then
          { success := false, output := .ostr [],
            error := some (S "AWS network error: " ++ error_output),
            exit_code := some code, error_type := some (S "network_error") }
        else
          { success := false, output := output,
            error := some (S "AWS command failed: " ++ error_output),
            exit_code := some code, error_type := some (S "execution_error") }
      else
        { success := true, output := output, error := none,
          exit_code := some code, error_type := none }
    | .timedOut =>
      { success := false, output := .ostr [],
        error := some
          (S "AWS command timed out after " ++ intStr timeout ++ S " seconds"),
        exit_code := none, error_type := some (S "timeout_error") }
    | .raisedPermission msg =>
      { success := false, output := .ostr [], error := some msg,
        exit_code := none, error_type := some (S "permission_error") }
    | .raisedOther msg =>
      { success := false, output := .ostr [],
        error := some
          (if msg = [] then S "Failed to execute AWS command: " ++ command
           else msg),
        exit_code := none, error_type := some (S "execution_error") }

end AWSExecutor

namespace SystemExecutor

/-- The `dangerous_commands` substring list of
`SystemExecutor.validate_command`. -/
def dangerous_commands : List (List Char) :=
  [S "rm -rf", S "del /f /s", S "format", S "fdisk", S "mkfs"]

/-- `SystemExecutor.validate_command` (system_executor.py:179). -/
def validate_command (allowed : List Char) (command : PyStrArg) : Bool :=
  match command with
  | .nonStr => false
  | .pystr s =>
    if s = [] then false
    else if allowed = S "restricted" then
      let command_lower := lowerStr s
      if dangerous_commands.any (fun d => containsSub d command_lower) then false
      else true
    else true

/-- `SystemExecutor.execute` (system_executor.py:42). -/
def execute (allowed : List Char) (command : List Char) (dry_run : Bool)
    (timeout : Int) (outcome : SubprocOutcome) : ExecResult :=
  if validate_command allowed (.pystr command) = false then
    { success := false, output := .ostr [],
      error := some (S "Invalid system command"),
      exit_code := none, error_type := some (S "validation_error") }
  else if dry_run then
    { success := true,
      output := .ostr (S "[DRY RUN] Would execute: " ++ command),
      error := none, exit_code := some 0, error_type := none }
  else
    match outcome with
    | .completed code out err =>
      if code ≠ 0 then
        let error_output := if err ≠ [] then err else out
        let errLow := lowerStr error_output
        if containsSub (S "permission denied") errLow ||
            containsSub (S "access denied") errLow ||
            containsSub (S "unauthorized") errLow then
          { success := false, output := .ostr [],
            error := some (S "Permission denied: " ++ error_output),
            exit_code := some code, error_type := some (S "permission_error") }
        else
          { success := false, output := .ostr out,
            error := some
              (S "Command failed with exit code " ++ intStr code ++ S ": " ++
                error_output),
            exit_code := some code, error_type := some (S "execution_error") }
      else
        { success := true, output := .ostr out, error := none,
          exit_code := some code, error_type := none }
    | .timedOut =>
      { success := false, output := .ostr [],
        error := some
          (S "Command execution timed out after " ++ intStr timeout ++
            S " seconds"),
        exit_code := none, error_type := some (S "timeout_error") }
    | .raisedPermission msg =>
      { success := false, output := .ostr [], error := some msg,
        exit_code := none, error_type := some (S "permission_error") }
    | .raisedOther msg =>
      { success := false, output := .ostr [],
        error := some
          (if msg = [] then S "Failed to execute system command: " ++ command
           else msg),
        exit_code := none, error_type := some (S "execution_error") }

end SystemExecutor

/-! ### Script generator (`script_generator.py`) -/

namespace ScriptGenerator

/-- The five `dangerous_patterns` of `validate_script`, paired with the
pattern text used in the error message. -/
def dangerous_patterns : List ((List Char → Bool) × List Char) :=
  [(rmRfAt, S "rm\\s+-rf"),
   (delFSAt, S "del\\s+/f\\s+/s"),
   (formatWsAt, S "format\\s+"),
   (dropDatabaseAt, S "drop\\s+database"),
   (shutdownAt, S "shutdown")]

/-- The dangerous-pattern loop of `validate_script`: one error message per
matching pattern, in source order.  `re.IGNORECASE` search is modelled by
searching the lowered script with the (lower-case) patterns. -/
def dangerErrors (script : List Char) : List (List Char) :=
  (dangerous_patterns.filter (fun pr => search pr.1 (lowerStr script))).map
    (fun pr => S "Potentially dangerous command detected: " ++ pr.2)

/-- The placeholder regex `\{(\w+)\}|\$(\w+)|\%(\w+)\%` of
`validate_script`: true when `re.findall` returns a non-empty list. -/
def hasPlaceholder (script : List Char) : Bool :=
  search
    (fun l =>
      bracePlaceholderAt l || dollarPlaceholderAt l || percentPlaceholderAt l)
    script

/-- `ScriptGenerator.validate_script` (script_generator.py:187).  Returns
the list of validation error messages, empty when the script is valid.
`task_params` is unused by the source function's body and therefore not a
parameter of the model. -/
def validate_script (script : List Char) (executor_type : List Char) :
    List (List Char) :=
  if script = [] || stripPy script = [] then [S "Script is empty"]
  else
    dangerErrors script ++
      (if executor_type = S "aws" && !containsSub (S "aws ") (lowerStr script)
       then [S "AWS script should start with 'aws' command"]
       else []) ++
      (if hasPlaceholder script then [S "Unreplaced placeholders found"]
       else [])

end ScriptGenerator

/-! ### Task decomposer (`decomposer.py`) -/

namespace TaskDecomposer

/-- A subtask dictionary.  Each field is `Option`al, modelling presence or
absence of the corresponding key in the Python dict (`none` = key absent). -/
structure PySubtask where
  id : Option (List Char) := none
  subtask : Option (List Char) := none
  task_type : Option (List Char) := none
  dependencies : Option (List (List Char)) := none
  priority : Option Int := none
deriving DecidableEq, Repr

/-- Oracle for the decomposer's LLM: none configured, `invoke` raised, or
`invoke` returned a response with the given content. -/
inductive LLMBehavior where
  | noLLM
  | raises
  | responds (content : List Char)
deriving DecidableEq, Repr

/-- `re.search(r'\[.*\]', content, re.DOTALL)` finds a match exactly when
some `[` is followed (anywhere later) by some `]`. -/
def hasArrayMatch (content : List Char) : Bool :=
  search
    (fun l => match l with
      | '[' :: rest => rest.any (fun c => c = ']')
      | _ => false)
    content

/-- The text of the greedy match of `\[.*\]` under `re.DOTALL`: from the
first `[` to the last `]` of the content, both included. -/
def extractArray (content : List Char) : List Char :=
  ((content.dropWhile (fun c => c ≠ '[')).reverse.dropWhile
    (fun c => c ≠ ']')).reverse

/-- The `for i, subtask in enumerate(subtasks): subtask["id"] = str(i)`
loop: assign each subtask the string of its position, overwriting any
existing `id`. -/
def assignIds (start : Nat) : List PySubtask → List PySubtask
  | [] => []
  | st :: rest => { st with id := some (natStr start) } :: assignIds (start + 1) rest

/-- The single-subtask fallback dict of `decompose`, with or without the
`"id": "0"` key. -/
def fallback (withId : Bool) (task : List Char) : PySubtask :=
  { id := if withId then some (S "0") else none,
    subtask := some task, task_type := some (S "general"),
    dependencies := some [], priority := some 5 }

/-- `TaskDecomposer.decompose` (decomposer.py:44).  `parse` is the oracle
for `json.loads` on the extracted array text: `some subs` when it returns a
list of dicts, `none` when it raises or the loop over the parsed value
raises (the surrounding `try` turns any such exception into the fallback). -/
def decompose (task : List Char) (llm : LLMBehavior)
    (parse : List Char → Option (List PySubtask)) : List PySubtask :=
  match llm with
  | .noLLM => [fallback false task]
  | .raises => [fallback true task]
  | .responds content =>
    if hasArrayMatch content then
      match parse (extractArray content) with
      | some subtasks => assignIds 0 subtasks
      | none => [fallback true task]
    else [fallback true task]

/-- The sort key of `create_execution_plan`:
`(x.get("priority", 5), len(x.get("dependencies", [])))`. -/
def planKey (st : PySubtask) : Int × Nat :=
  (st.priority.getD 5, (st.dependencies.getD []).length)

/-- `a` may be placed before `b` by the descending stable sort
(`sorted(..., key=..., reverse=True)`): `planKey a` is lexicographically
greater than or equal to `planKey b`. -/
def keyGe (a b : PySubtask) : Prop :=
  (planKey b).1 < (planKey a).1 ∨
    ((planKey a).1 = (planKey b).1 ∧ (planKey b).2 ≤ (planKey a).2)

instance : DecidableRel keyGe := fun a b => by
  unfold keyGe; infer_instance

instance : IsTotal PySubtask keyGe where
  total a b := by
    unfold keyGe
    rcases lt_trichotomy (planKey a).1 (planKey b).1 with h | h | h
    · exact Or.inr (Or.inl h)
    · rcases le_total (planKey b).2 (planKey a).2 with h2 | h2
      · exact Or.inl (Or.inr ⟨h, h2⟩)
      · exact Or.inr (Or.inr ⟨h.symm, h2⟩)
    · exact Or.inl (Or.inl h)

instance : IsTrans PySubtask keyGe where
  trans a b c hab hbc := by
    unfold keyGe at *
    rcases hab with h1 | ⟨h1, h1'⟩ <;> rcases hbc with h2 | ⟨h2, h2'⟩
    · exact Or.inl (h2.trans h1)
    · exact Or.inl (h2 ▸ h1)
    · exact Or.inl (h1 ▸ h2)
    · exact Or.inr ⟨h2 ▸ h1, h2'.trans h1'⟩

/-- One step of the execution plan. -/
structure PlanStep (α : Type) where
  step_id : List Char
  order : Nat
  subtask : PySubtask
  instructions : List α
deriving DecidableEq, Repr

/-- The `for i, subtask in enumerate(sorted_subtasks)` loop of
`create_execution_plan`, with `start` the number of steps already emitted. -/
def buildPlan {α : Type} (imap : List (List Char × List α)) (start : Nat) :
    List PySubtask → List (PlanStep α)
  | [] => []
  | st :: rest =>
    let sid := st.id.getD (natStr start)
    { step_id := sid, order := start + 1, subtask := st,
      instructions := ((imap.lookup sid).getD []) } :: buildPlan imap (start + 1) rest

/-- `TaskDecomposer.create_execution_plan` (decomposer.py:160).  The sort
is Python's `sorted` with `reverse=True`, i.e. the stable descending sort
by `planKey`, modelled by insertion sort with the total relation `keyGe`. -/
def create_execution_plan {α : Type} (subtasks : List PySubtask)
    (imap : List (List Char × List α)) : List (PlanStep α) :=
  buildPlan imap 0 (List.insertionSort keyGe subtasks)

end TaskDecomposer

/-! ### Instruction store (`instruction_store.py`) -/

namespace InstructionStore

/-- Metadata dictionary: an association list from keys to values. -/
abbrev Meta : Type := List (List Char × List Char)

/-- One record of the Chroma collection: id, document text, metadata. -/
structure ChromaEntry where
  id : List Char
  doc : List Char
  meta : Meta
deriving DecidableEq

/-- The collection state. -/
abbrev Collection : Type := List ChromaEntry

/-- `InstructionStore.get_instruction_by_id` (instruction_store.py:142):
`collection.get(ids=[id])` returns the matching record, if any. -/
def get_instruction_by_id (col : Collection) (instruction_id : List Char) :
    Option ChromaEntry :=
  col.find? (fun e => e.id == instruction_id)

/-- Python's `{**old, **new}` dict merge: keys of `new` win. -/
def pyMerge (old new : Meta) : Meta :=
  old.filter (fun p => (List.lookup p.1 new).isNone) ++ new

/-- `collection.update(ids=[id], documents?, metadatas?)`: replace the
given fields of the record with the matching id. -/
def colUpdate (col : Collection) (instruction_id : List Char)
    (newDoc : Option (List Char)) (newMeta : Option Meta) : Collection :=
  col.map (fun e =>
    if e.id == instruction_id then
      { e with doc := newDoc.getD e.doc, meta := newMeta.getD e.meta }
    else e)

/-- Truthiness of an optional string argument (`if instruction_text:`). -/
def truthyStr (o : Option (List Char)) : Bool :=
  match o with
  | none => false
  | some s => !s.isEmpty

/-- Truthiness of an optional metadata argument (`if metadata:`). -/
def truthyMeta (o : Option Meta) : Bool :=
  match o with
  | none => false
  | some m => !(List.isEmpty m)

/-- `InstructionStore.update_instruction` (instruction_store.py:163).
Returns the Python return value and the new collection state. -/
def update_instruction (col : Collection) (instruction_id : List Char)
    (instruction_text : Option (List Char)) (metadata : Option Meta) :
    Bool × Collection :=
  match get_instruction_by_id col instruction_id with
  | none => (false, col)
  | some existing =>
    let newDoc := if truthyStr instruction_text then instruction_text else none
    let newMeta :=
      if truthyMeta metadata then some (pyMerge existing.meta (metadata.getD []))
      else none
    if newDoc.isSome || newMeta.isSome then
      (true, colUpdate col instruction_id newDoc newMeta)
    else (true, col)

end InstructionStore

/-! ### Instruction manager (`instruction_manager.py`) -/

namespace InstructionManager

open InstructionStore

/-- One item of a parsed instruction file: either not a JSON object, or an
object with optional `task_type`, `instruction_text` and `metadata` keys
(field values restricted to the string/dict shapes the claims exercise). -/
inductive ImportItem where
  | notObj
  | obj (task_type : Option (List Char)) (instruction_text : Option (List Char))
      (metadata : Option Meta)
deriving DecidableEq

/-- The parsed content of an instruction file: a single JSON object, a
JSON array, or any other JSON value. -/
inductive FileData where
  | objData (item : ImportItem)
  | listData (items : List ImportItem)
  | otherData
deriving DecidableEq

/-- An item passes the per-item checks of the bulk-import loop: it is an
object and both `task_type` and `instruction_text` are present and truthy. -/
def conforms : ImportItem → Bool
  | .notObj => false
  | .obj tt it _ => truthyStr tt && truthyStr it

/-- `InstructionStore.add_instruction` (instruction_store.py:23), as called
by the bulk-import loop: stores the text with `task_type` merged into the
metadata and returns a fresh id.  `uid` counts prior additions and
`idSupply` models the `uuid4()` generator. -/
def store_add (idSupply : Nat → List Char) (uid : Nat) (col : Collection)
    (task_type instruction_text : List Char) (metadata : Option Meta) :
    List Char × Collection :=
  let iid := idSupply uid
  (iid, col ++ [{ id := iid, doc := instruction_text,
                  meta := (S "task_type", task_type) :: metadata.getD [] }])

/-- Accumulator of the bulk-import loop. -/
structure BulkState where
  imported : List (List Char)
  errors : List (List Char)
  uid : Nat
  col : Collection
deriving DecidableEq

/-- The body of `for idx, instruction in enumerate(instructions)` in
`bulk_import_from_file` (instruction_manager.py:312). -/
def processItem (idSupply : Nat → List Char) (idx : Nat) (st : BulkState) :
    ImportItem → BulkState
  | .notObj =>
    { st with errors :=
        st.errors ++ [S "Item " ++ natStr idx ++ S ": Must be a JSON object"] }
  | .obj tt it md =>
    if !truthyStr tt || !truthyStr it then
      { st with errors :=
          st.errors ++
            [S "Item " ++ natStr idx ++
              S ": Missing required fields (task_type, instruction_text)"] }
    else
      let r := store_add idSupply st.uid st.col (tt.getD []) (it.getD []) md
      { st with imported := st.imported ++ [r.1], uid := st.uid + 1,
                col := r.2 }

/-- The bulk-import loop over all items. -/
def bulkGo (idSupply : Nat → List Char) (idx : Nat) (st : BulkState) :
    List ImportItem → BulkState
  | [] => st
  | item :: rest => bulkGo idSupply (idx + 1) (processItem idSupply idx st item) rest

/-- The result dictionary of `bulk_import_from_file`. -/
structure ImportResult where
  success : Bool
  imported_count : Nat
  error_count : Nat
  imported_ids : List (List Char)
  errors : List (List Char)
deriving DecidableEq

/-- `InstructionManager.bulk_import_from_file` (instruction_manager.py:280)
after the file has been read and JSON-parsed into `data`.  A non-object,
non-array file raises `ValidationError` (the `Except.error` case). -/
def bulk_import_from_file (idSupply : Nat → List Char) (col : Collection)
    (data : FileData) : Except (List Char) (ImportResult × Collection) :=
  match data with
  | .otherData => .error (S "File must contain a JSON object or array")
  | .objData item => .ok (bulkResult (bulkGo idSupply 0 ⟨[], [], 0, col⟩ [item]))
  | .listData items => .ok (bulkResult (bulkGo idSupply 0 ⟨[], [], 0, col⟩ items))
where
  bulkResult (st : BulkState) : ImportResult × Collection :=
    ({ success := st.errors.isEmpty,
       imported_count := st.imported.length,
       error_count := st.errors.length,
       imported_ids := st.imported,
       errors := st.errors }, st.col)

/-- `InstructionManager.add_instruction` (instruction_manager.py:27): the
single-add API validates its inputs — in particular the 10-character
minimum on the stripped instruction text — and raises `ValidationError`
otherwise. -/
def add_instruction (idSupply : Nat → List Char) (uid : Nat) (col : Collection)
    (task_type : PyStrArg) (instruction_text : PyStrArg) (metadata : Option Meta) :
    Except (List Char) (List Char × Collection) :=
  match task_type, instruction_text with
  | .nonStr, _ => .error (S "task_type is required and must be a string")
  | _, .nonStr => .error (S "instruction_text is required and must be a string")
  | .pystr tt, .pystr it =>
    if tt = [] then .error (S "task_type is required and must be a string")
    else if it = [] then
      .error (S "instruction_text is required and must be a string")
    else if (stripPy it).length < 10 then
      .error (S "instruction_text must be at least 10 characters")
    else .ok (store_add idSupply uid col tt it metadata)

end InstructionManager

/-! ### LangChain agent (`langchain_agent.py`) -/

namespace LangChainAgent

/-- Oracle for one `agent_executor.invoke` call: the `output` text it
returned, or the message of the exception it raised. -/
inductive AgentOutcome where
  | returns (output : List Char)
  | raises (msg : List Char)
deriving DecidableEq, Repr

/-- The result dictionary of `process_query`. -/
structure QueryResult where
  response : List Char
  success : Bool
  steps : List (List Char)
  error : Option (List Char)
deriving DecidableEq, Repr

/-- The query text actually sent to the agent executor: `process_query`
prefixes and suffixes the query when `dry_run` is set. -/
def effective_query (query : List Char) (dry_run : Bool) : List Char :=
  if dry_run then
    S "[DRY RUN MODE] " ++ query ++
      S " - Do not execute commands, only show what would be done."
  else query

/-- The result dictionary `process_query` builds from the
`agent_executor.invoke` outcome: the success heuristic on the output text
in the normal path, the canned failure dictionary in the except path. -/
def handle_outcome : AgentOutcome → QueryResult
  | .returns out =>
    { response := out,
      success := !containsSub (S "error") (lowerStr out) &&
        !containsSub (S "failed") (lowerStr out),
      steps := [], error := none }
  | .raises msg =>
    { response := S "I encountered an error while processing your request: " ++ msg,
      success := false, steps := [], error := some msg }

/-- `LangChainAgent.process_query` (langchain_agent.py:191).  `agent` is
the oracle for the agent executor, applied to the (possibly dry-run
prefixed) query text. -/
def process_query (query : List Char) (dry_run : Bool)
    (agent : List Char → AgentOutcome) : QueryResult :=
  handle_outcome (agent (effective_query query dry_run))

end LangChainAgent

/-- The string payload of an `output` field. -/
def OutVal.text : OutVal → List Char
  | .ostr s => s
  | .ojson raw => raw

namespace TaskDecomposer

/-- Concrete subtask with priority 8 (for the `[8,3,9]` scenario). -/
def subtask8 : PySubtask := { subtask := some (S "p8"), priority := some 8 }

/-- Concrete subtask with priority 3. -/
def subtask3 : PySubtask := { subtask := some (S "p3"), priority := some 3 }

/-- Concrete subtask with priority 9. -/
def subtask9 : PySubtask := { subtask := some (S "p9"), priority := some 9 }

/-- First of two subtasks with identical sort keys. -/
def tieFirst : PySubtask := { subtask := some (S "tie first"), priority := some 5 }

/-- Second of two subtasks with identical sort keys. -/
def tieSecond : PySubtask := { subtask := some (S "tie second"), priority := some 5 }

/-- High-priority subtask that declares a dependency on `depLow`. -/
def depHigh : PySubtask :=
  { id := some (S "f"), subtask := some (S "needs g"),
    dependencies := some [S "g"], priority := some 9 }

/-- Low-priority subtask that `depHigh` depends on. -/
def depLow : PySubtask :=
  { id := some (S "g"), subtask := some (S "prereq"),
    dependencies := some [], priority := some 1 }

/-- Empty instructions map used by the concrete plan scenarios. -/
def emptyImap : List (List Char × List Unit) := []

/-- The priorities of a plan's steps, in plan order. -/
def planPriorities (l : List PySubtask) : List (Option Int) :=
  (create_execution_plan l emptyImap).map (fun s => s.subtask.priority)

end TaskDecomposer

namespace InstructionStore

/-- A one-instruction collection used by the concrete update scenarios. -/
def sampleCol : Collection :=
  [{ id := S "i1", doc := S "old text",
     meta := [(S "task_type", S "t"), (S "platform", S "aws")] }]

end InstructionStore

/-! ## Lemmas about the string primitives -/

theorem isPre_append_self (p b : List Char) : isPre p (p ++ b) = true := by
  induction p with
  | nil => rfl
  | cons c cs ih => simp [isPre, ih]

theorem isPre_iff (p l : List Char) : isPre p l = true ↔ ∃ b, l = p ++ b := by
  induction p generalizing l with
  | nil => simp [isPre]
  | cons c cs ih =>
    cases l with
    | nil => simp [isPre]
    | cons d ds =>
      simp only [isPre, Bool.and_eq_true, beq_iff_eq, ih]
      constructor
      · rintro ⟨rfl, b, rfl⟩
        exact ⟨b, rfl⟩
      · rintro ⟨b, hb⟩
        obtain ⟨rfl, rfl⟩ : d = c ∧ ds = cs ++ b := by
          simpa using hb
        exact ⟨rfl, b, rfl⟩

theorem containsSub_of_tail {pat : List Char} {l : List Char} (c : Char)
    (h : containsSub pat l = true) : containsSub pat (c :: l) = true := by
  simp [containsSub, h]

theorem containsSub_append_left {pat l : List Char} (a : List Char)
    (h : containsSub pat l = true) : containsSub pat (a ++ l) = true := by
  induction a with
  | nil => simpa using h
  | cons c cs ih => exact containsSub_of_tail c ih

theorem containsSub_iff (pat l : List Char) :
    containsSub pat l = true ↔ isSubstr pat l := by
  constructor
  · intro h
    induction l with
    | nil =>
      have : pat = [] := by simpa [containsSub, List.isEmpty_iff] using h
      exact ⟨[], [], by simp [this]⟩
    | cons c cs ih =>
      simp only [containsSub, Bool.or_eq_true] at h
      rcases h with h | h
      · obtain ⟨b, hb⟩ := (isPre_iff pat (c :: cs)).1 h
        exact ⟨[], b, by simp [hb]⟩
      · obtain ⟨a, b, hab⟩ := ih h
        exact ⟨c :: a, b, by simp [hab]⟩
  · rintro ⟨a, b, rfl⟩
    rw [List.append_assoc]
    apply containsSub_append_left
    cases pat with
    | nil =>
      induction b with
      | nil => rfl
      | cons d ds => simp [containsSub, isPre]
    | cons p ps =>
      show containsSub (p :: ps) (p :: (ps ++ b)) = true
      simp only [containsSub, Bool.or_eq_true]
      exact Or.inl (isPre_append_self (p :: ps) b)

theorem search_of_match {m : List Char → Bool} {v : List Char}
    (h : m v = true) (u : List Char) : search m (u ++ v) = true := by
  induction u with
  | nil =>
    cases v with
    | nil => simpa [search] using h
    | cons c cs => simp [search, h]
  | cons c cs ih => simp [search, ih]


/-! ## Claim theorems -/

theorem aws_success_iff_error_none (allowed command : List Char) (dry_run : Bool)
    (timeout : Int) (parseOk : List Char → Bool) (outcome : SubprocOutcome) :
    (AWSExecutor.execute allowed command dry_run timeout parseOk outcome).success = true ↔
      (AWSExecutor.execute allowed command dry_run timeout parseOk outcome).error = none := by
  cases outcome
  all_goals simp only [AWSExecutor.execute]
  all_goals repeat' split
  all_goals simp

theorem sys_success_iff_error_none (allowed command : List Char) (dry_run : Bool)
    (timeout : Int) (outcome : SubprocOutcome) :
    (SystemExecutor.execute allowed command dry_run timeout outcome).success = true ↔
      (SystemExecutor.execute allowed command dry_run timeout outcome).error = none := by
  cases outcome
  all_goals simp only [SystemExecutor.execute]
  all_goals repeat' split
  all_goals simp

/-- C9: for every call to `execute` on either executor — any policy,
command, dry-run flag, timeout and any subprocess outcome (validation
failure, completed process with zero or non-zero exit code, timeout or
raised exception) — the result has `success = true` exactly when its
`error` field is `None`, and every result with `success = false` carries a
non-null error message. -/
theorem claim_C9_success_iff_error_none :
    ∀ (allowed command : List Char) (dry_run : Bool) (timeout : Int)
      (parseOk : List Char → Bool) (outcome : SubprocOutcome),
      ((AWSExecutor.execute allowed command dry_run timeout parseOk outcome).success = true ↔
        (AWSExecutor.execute allowed command dry_run timeout parseOk outcome).error = none) ∧
      ((SystemExecutor.execute allowed command dry_run timeout outcome).success = true ↔
        (SystemExecutor.execute allowed command dry_run timeout outcome).error = none) ∧
      ((AWSExecutor.execute allowed command dry_run timeout parseOk outcome).success = false →
        ∃ msg, (AWSExecutor.execute allowed command dry_run timeout parseOk outcome).error = some msg) ∧
      ((SystemExecutor.execute allowed command dry_run timeout outcome).success = false →
        ∃ msg, (SystemExecutor.execute allowed command dry_run timeout outcome).error = some msg) := by
  intro allowed command dry_run timeout parseOk outcome
  have ha := aws_success_iff_error_none allowed command dry_run timeout parseOk outcome
  have hs := sys_success_iff_error_none allowed command dry_run timeout outcome
  refine ⟨ha, hs, ?_, ?_⟩
  · intro hfalse
    rcases h : (AWSExecutor.execute allowed command dry_run timeout parseOk outcome).error with _ | msg
    · rw [ha.2 h] at hfalse
      exact absurd hfalse (by simp)
    · exact ⟨msg, rfl⟩
  · intro hfalse
    rcases h : (SystemExecutor.execute allowed command dry_run timeout outcome).error with _ | msg
    · rw [hs.2 h] at hfalse
      exact absurd hfalse (by simp)
    · exact ⟨msg, rfl⟩

/-- `lowerStr` distributes over concatenation. -/
theorem lowerStr_append (a b : List Char) :
    lowerStr (a ++ b) = lowerStr a ++ lowerStr b :=
  List.map_append _ _ _

/-- C7: for every query processed by `process_query`, the returned success
flag is true iff the response text contains neither `"error"` nor
`"failed"` (case-insensitively) — also across the exception path, whose
canned response itself contains `"error"`. -/
theorem claim_C7_success_heuristic :
    ∀ (query : List Char) (dry_run : Bool)
      (agent : List Char → LangChainAgent.AgentOutcome),
      (LangChainAgent.process_query query dry_run agent).success = true ↔
        (¬ isSubstr (S "error")
            (lowerStr (LangChainAgent.process_query query dry_run agent).response) ∧
         ¬ isSubstr (S "failed")
            (lowerStr (LangChainAgent.process_query query dry_run agent).response)) := by
  intro query dry_run agent
  unfold LangChainAgent.process_query
  generalize agent (LangChainAgent.effective_query query dry_run) = oc
  rcases oc with out | msg
  · unfold LangChainAgent.handle_outcome
    rw [← containsSub_iff, ← containsSub_iff]
    cases hcE : containsSub (S "error") (lowerStr out) <;>
      cases hcF : containsSub (S "failed") (lowerStr out) <;> simp_all
  · unfold LangChainAgent.handle_outcome
    constructor
    · intro h
      exact absurd h (by simp)
    · rintro ⟨h1, _⟩
      exfalso
      apply h1
      refine ⟨S "i encountered an ",
        S " while processing your request: " ++ lowerStr msg, ?_⟩
      rw [lowerStr_append]
      rw [show lowerStr (S "I encountered an error while processing your request: ") =
        (S "i encountered an " ++ S "error") ++ S " while processing your request: "
        from by decide]
      rw [List.append_assoc]

/-- A substring occurrence whose first character is not whitespace
survives `dropWhile isWs`. -/
theorem isSubstr_dropWhile {c : Char} {cs : List Char} (hc : isWs c = false)
    {s : List Char} (h : isSubstr (c :: cs) s) :
    isSubstr (c :: cs) (s.dropWhile isWs) := by
  obtain ⟨a, b, rfl⟩ := h
  induction a with
  | nil =>
    refine ⟨[], b, ?_⟩
    simp [List.dropWhile_cons, hc]
  | cons x a ih =>
    have hshape : (x :: a) ++ (c :: cs) ++ b = x :: (a ++ (c :: cs) ++ b) := by
      simp
    rw [hshape, List.dropWhile_cons]
    by_cases hx : isWs x = true
    · simpa [hx] using ih
    · refine ⟨x :: a, b, ?_⟩
      simp [hx]

/-- Substring occurrences are preserved by reversing both sides. -/
theorem isSubstr_reverse {pat s : List Char} (h : isSubstr pat s) :
    isSubstr pat.reverse s.reverse := by
  obtain ⟨a, b, rfl⟩ := h
  exact ⟨b.reverse, a.reverse, by simp⟩

/-- A substring occurrence whose first and last characters are not
whitespace survives `str.strip()`. -/
theorem isSubstr_stripPy {pat s : List Char}
    (hh : ∃ c cs, pat = c :: cs ∧ isWs c = false)
    (hl : ∃ c cs, pat.reverse = c :: cs ∧ isWs c = false)
    (h : isSubstr pat s) : isSubstr pat (stripPy s) := by
  obtain ⟨c, cs, hpat, hc⟩ := hh
  obtain ⟨d, ds, hrev, hd⟩ := hl
  subst hpat
  have h1 := isSubstr_dropWhile hc h
  have h2 := isSubstr_reverse h1
  rw [hrev] at h2
  have h3 := isSubstr_dropWhile hd h2
  have h4 := isSubstr_reverse h3
  rw [← hrev, List.reverse_reverse] at h4
  unfold stripPy
  exact h4

/-- `rm\s+-rf` matches at the head of any list starting with the literal
`rm -rf`. -/
theorem rmRfAt_starts (b : List Char) : rmRfAt (S "rm -rf" ++ b) = true := rfl

/-- `--force` matches at the head of any list starting with it. -/
theorem dashForceAt_starts (b : List Char) :
    dashForceAt (S "--force" ++ b) = true := rfl

/-- `.*` can skip any newline-free run before its continuation matches. -/
theorem scanNoNl_append {k : List Char → Bool} {u v : List Char}
    (hu : ∀ x ∈ u, ¬ x = '\n') (hv : k v = true) :
    scanNoNl k (u ++ v) = true := by
  induction u with
  | nil =>
    cases v with
    | nil => simpa [scanNoNl] using hv
    | cons c cs => simp [scanNoNl, hv]
  | cons x xs ih =>
    have hx : ¬ x = '\n' := hu x (List.mem_cons_self x xs)
    have ih' := ih (fun y hy => hu y (List.mem_cons_of_mem x hy))
    simp [scanNoNl, hx, ih']

/-- A dangerous-pattern hit under the `"restricted"` policy makes
`AWSExecutor.validate_command` return `False`. -/
theorem aws_validate_false_of_dangerous {command : List Char}
    (h : AWSExecutor.dangerousMatch (stripPy (lowerStr command)) = true) :
    AWSExecutor.validate_command (S "restricted") (.pystr command) = false := by
  by_cases hc : command = [] <;> simp [AWSExecutor.validate_command, hc, h]

/-- A dangerous-substring hit under the `"restricted"` policy makes
`SystemExecutor.validate_command` return `False`. -/
theorem sys_validate_false_of_sub {command d : List Char}
    (hd : d ∈ SystemExecutor.dangerous_commands)
    (h : isSubstr d (lowerStr command)) :
    SystemExecutor.validate_command (S "restricted") (.pystr command) = false := by
  have hany : SystemExecutor.dangerous_commands.any
      (fun x => containsSub x (lowerStr command)) = true :=
    List.any_eq_true.mpr ⟨d, hd, (containsSub_iff _ _).mpr h⟩
  by_cases hc : command = [] <;>
    simp [SystemExecutor.validate_command, hc, hany]

/-- C1 (counterexample): under the `"restricted"` policy,
`AWSExecutor.validate_command` accepts the raw-disk-format command
`mkfs /dev/sda1` (its pattern list has no raw-disk-format entry), even
though the sibling `SystemExecutor.validate_command` rejects the very same
command as destructive. -/
theorem claim_C1_counterexample :
    AWSExecutor.validate_command (S "restricted") (.pystr (S "mkfs /dev/sda1")) = true ∧
    SystemExecutor.validate_command (S "restricted") (.pystr (S "mkfs /dev/sda1")) = false := by
  decide

/-- C1 (amended): both validators reject empty or non-string input; under
the `"restricted"` policy each executor rejects every command matching its
own fixed destructive-pattern list — for `AWSExecutor` the patterns
`rm\s+-rf`, `delete.*--force` and `terminate.*--force` (recursive delete
and forced deletion/termination; no raw-disk-format pattern), for
`SystemExecutor` the substrings `rm -rf`, `del /f /s`, `format`, `fdisk`
and `mkfs` — while under the `"all"` policy both accept every non-empty
string; in particular `SystemExecutor.validate_command "rm -rf /tmp/x"` is
`False` under `"restricted"` and `True` under `"all"`. -/
theorem claim_C1_amended :
    (∀ allowed : List Char,
      AWSExecutor.validate_command allowed .nonStr = false ∧
      AWSExecutor.validate_command allowed (.pystr []) = false ∧
      SystemExecutor.validate_command allowed .nonStr = false ∧
      SystemExecutor.validate_command allowed (.pystr []) = false) ∧
    (∀ command : List Char, isSubstr (S "rm -rf") (lowerStr command) →
      AWSExecutor.validate_command (S "restricted") (.pystr command) = false) ∧
    (∀ command mid a b : List Char,
      lowerStr command = a ++ (S "delete" ++ mid ++ S "--force") ++ b →
      (∀ x ∈ mid, ¬ x = '\n') →
      AWSExecutor.validate_command (S "restricted") (.pystr command) = false) ∧
    (∀ command mid a b : List Char,
      lowerStr command = a ++ (S "terminate" ++ mid ++ S "--force") ++ b →
      (∀ x ∈ mid, ¬ x = '\n') →
      AWSExecutor.validate_command (S "restricted") (.pystr command) = false) ∧
    (∀ command d : List Char, d ∈ SystemExecutor.dangerous_commands →
      isSubstr d (lowerStr command) →
      SystemExecutor.validate_command (S "restricted") (.pystr command) = false) ∧
    (∀ command : List Char, command ≠ [] →
      AWSExecutor.validate_command (S "all") (.pystr command) = true ∧
      SystemExecutor.validate_command (S "all") (.pystr command) = true) ∧
    (SystemExecutor.validate_command (S "restricted") (.pystr (S "rm -rf /tmp/x")) = false ∧
     SystemExecutor.validate_command (S "all") (.pystr (S "rm -rf /tmp/x")) = true) := by
  refine ⟨?_, ?_, ?_, ?_, ?_, ?_, by decide⟩
  · intro allowed
    exact ⟨rfl, by simp [AWSExecutor.validate_command], rfl,
      by simp [SystemExecutor.validate_command]⟩
  · intro command hsub
    apply aws_validate_false_of_dangerous
    obtain ⟨a1, b1, hdec⟩ :=
      isSubstr_stripPy ⟨'r', S "m -rf", rfl, by decide⟩
        ⟨'f', S "r- mr", by decide, by decide⟩ hsub
    have hsearch : search rmRfAt (stripPy (lowerStr command)) = true := by
      rw [hdec, List.append_assoc]
      exact search_of_match (rmRfAt_starts b1) a1
    simp [AWSExecutor.dangerousMatch, hsearch]
  · intro command mid a b hdec hmid
    apply aws_validate_false_of_dangerous
    have hsub : isSubstr (S "delete" ++ mid ++ S "--force") (lowerStr command) :=
      ⟨a, b, hdec⟩
    have hl : ∃ c cs, (S "delete" ++ mid ++ S "--force").reverse = c :: cs ∧
        isWs c = false := by
      refine ⟨'e', S "crof--" ++ (mid.reverse ++ S "eteled"), ?_, by decide⟩
      rw [List.reverse_append, List.reverse_append]
      rfl
    obtain ⟨a1, b1, hdec2⟩ :=
      isSubstr_stripPy ⟨'d', S "elete" ++ mid ++ S "--force", rfl, by decide⟩
        hl hsub
    have hsearch : search deleteForceAt (stripPy (lowerStr command)) = true := by
      rw [hdec2, List.append_assoc]
      apply search_of_match ?_ a1
      have hred : deleteForceAt ('d' :: (S "elete" ++ mid ++ S "--force") ++ b1) =
          scanNoNl dashForceAt ((mid ++ S "--force") ++ b1) := rfl
      rw [hred, List.append_assoc]
      exact scanNoNl_append hmid (dashForceAt_starts b1)
    simp [AWSExecutor.dangerousMatch, hsearch]
  · intro command mid a b hdec hmid
    apply aws_validate_false_of_dangerous
    have hsub : isSubstr (S "terminate" ++ mid ++ S "--force") (lowerStr command) :=
      ⟨a, b, hdec⟩
    have hl : ∃ c cs, (S "terminate" ++ mid ++ S "--force").reverse = c :: cs ∧
        isWs c = false := by
      refine ⟨'e', S "crof--" ++ (mid.reverse ++ S "etanimret"), ?_, by decide⟩
      rw [List.reverse_append, List.reverse_append]
      rfl
    obtain ⟨a1, b1, hdec2⟩ :=
      isSubstr_stripPy ⟨'t', S "erminate" ++ mid ++ S "--force", rfl, by decide⟩
        hl hsub
    have hsearch : search terminateForceAt (stripPy (lowerStr command)) = true := by
      rw [hdec2, List.append_assoc]
      apply search_of_match ?_ a1
      have hred : terminateForceAt ('t' :: (S "erminate" ++ mid ++ S "--force") ++ b1) =
          scanNoNl dashForceAt ((mid ++ S "--force") ++ b1) := rfl
      rw [hred, List.append_assoc]
      exact scanNoNl_append hmid (dashForceAt_starts b1)
    simp [AWSExecutor.dangerousMatch, hsearch]
  · intro command d hd hsub
    exact sys_validate_false_of_sub hd hsub
  · intro command hne
    have hAR : ¬ (S "all" = S "restricted") := by decide
    constructor
    · simp [AWSExecutor.validate_command, hne, hAR]
    · simp [SystemExecutor.validate_command, hne, hAR]

/-- C1 (witness): the amended theorem applied at concrete inputs — an AWS
recursive delete, an AWS forced deletion, a System `mkfs`, and a non-empty
command under the `"all"` policy. -/
theorem claim_C1_witness :
    AWSExecutor.validate_command (S "restricted") (.pystr (S "aws s3 rm -rf bucket")) = false ∧
    AWSExecutor.validate_command (S "restricted")
      (.pystr (S "aws ec2 delete-snapshot --force")) = false ∧
    SystemExecutor.validate_command (S "restricted") (.pystr (S "mkfs /dev/sda1")) = false ∧
    AWSExecutor.validate_command (S "all") (.pystr (S "ls")) = true :=
  ⟨claim_C1_amended.2.1 (S "aws s3 rm -rf bucket")
      ⟨S "aws s3 ", S " bucket", by decide⟩,
    claim_C1_amended.2.2.1 (S "aws ec2 delete-snapshot --force")
      (S "-snapshot ") (S "aws ec2 ") []
      (by decide) (by decide),
    claim_C1_amended.2.2.2.2.1 (S "mkfs /dev/sda1") (S "mkfs")
      (by decide) ⟨[], S " /dev/sda1", by decide⟩,
    (claim_C1_amended.2.2.2.2.2.1 (S "ls") (by decide)).1⟩

/-- C2 (counterexample): `execute` validates before checking `dry_run`, so
a dry-run call with a command that fails validation returns
`success = False` — here `SystemExecutor` under the `"restricted"` policy
with `rm -rf /tmp/x` — refuting "always returns success=True". -/
theorem claim_C2_counterexample :
    (SystemExecutor.execute (S "restricted") (S "rm -rf /tmp/x") true 30
      (.completed 0 [] [])).success = false := by
  decide

/-- C2 (amended): with `dry_run=True` neither executor ever consults the
subprocess outcome (the result is identical for any two outcomes), and for
every command that passes `validate_command` the result has
`success = true` with an output containing the literal command string. -/
theorem claim_C2_amended :
    ∀ (allowed command : List Char) (timeout : Int) (parseOk : List Char → Bool)
      (o o' : SubprocOutcome),
      (AWSExecutor.execute allowed command true timeout parseOk o =
        AWSExecutor.execute allowed command true timeout parseOk o') ∧
      (SystemExecutor.execute allowed command true timeout o =
        SystemExecutor.execute allowed command true timeout o') ∧
      (AWSExecutor.validate_command allowed (.pystr command) = true →
        (AWSExecutor.execute allowed command true timeout parseOk o).success = true ∧
        isSubstr command
          (AWSExecutor.execute allowed command true timeout parseOk o).output.text) ∧
      (SystemExecutor.validate_command allowed (.pystr command) = true →
        (SystemExecutor.execute allowed command true timeout o).success = true ∧
        isSubstr command
          (SystemExecutor.execute allowed command true timeout o).output.text) := by
  intro allowed command timeout parseOk o o'
  refine ⟨?_, ?_, ?_, ?_⟩
  · unfold AWSExecutor.execute
    split <;> simp
  · unfold SystemExecutor.execute
    split <;> simp
  · intro hv
    have hres : AWSExecutor.execute allowed command true timeout parseOk o =
        { success := true,
          output := .ostr (S "[DRY RUN] Would execute: " ++ command),
          error := none, exit_code := some 0, error_type := none } := by
      unfold AWSExecutor.execute
      rw [hv]
      simp
    rw [hres]
    exact ⟨rfl, S "[DRY RUN] Would execute: ", [], by simp [OutVal.text]⟩
  · intro hv
    have hres : SystemExecutor.execute allowed command true timeout o =
        { success := true,
          output := .ostr (S "[DRY RUN] Would execute: " ++ command),
          error := none, exit_code := some 0, error_type := none } := by
      unfold SystemExecutor.execute
      rw [hv]
      simp
    rw [hres]
    exact ⟨rfl, S "[DRY RUN] Would execute: ", [], by simp [OutVal.text]⟩

/-- C2 (witness): the amended theorem applied to a concrete valid command
under the `"all"` policy. -/
theorem claim_C2_witness :
    (SystemExecutor.execute (S "all") (S "echo hi") true 30
      (.completed 0 [] [])).success = true ∧
    isSubstr (S "echo hi")
      (SystemExecutor.execute (S "all") (S "echo hi") true 30
        (.completed 0 [] [])).output.text :=
  (claim_C2_amended (S "all") (S "echo hi") 30 (fun _ => true)
    (.completed 0 [] []) .timedOut).2.2.2 (by decide)

/-- `assignIds` preserves the length of the list. -/
theorem assignIds_length (start : Nat) (l : List TaskDecomposer.PySubtask) :
    (TaskDecomposer.assignIds start l).length = l.length := by
  induction l generalizing start with
  | nil => rfl
  | cons st rest ih => simp [TaskDecomposer.assignIds, ih]

/-- The `i`-th element of `assignIds start l` is the `i`-th element of `l`
with its `id` replaced by `str(start + i)`. -/
theorem assignIds_get? (start : Nat) (l : List TaskDecomposer.PySubtask)
    (i : Nat) :
    (TaskDecomposer.assignIds start l).get? i =
      (l.get? i).map (fun st => { st with id := some (natStr (start + i)) }) := by
  induction l generalizing start i with
  | nil => simp [TaskDecomposer.assignIds]
  | cons st rest ih =>
    cases i with
    | zero => simp [TaskDecomposer.assignIds]
    | succ n =>
      have harith : start + (n + 1) = (start + 1) + n := by omega
      simp only [TaskDecomposer.assignIds, List.get?, ih (start + 1) n, harith]

/-- C3: whenever `decompose` cannot use a parsed LLM result — no LLM
configured, the LLM call raised, the response contains no `[...]` match,
or `json.loads`/the id loop raised — it returns exactly one subtask whose
`subtask` is the original task, with `task_type = "general"`, no
dependencies and priority 5; no error is surfaced. -/
theorem claim_C3_fallback :
    ∀ (task content : List Char)
      (parse : List Char → Option (List TaskDecomposer.PySubtask)),
      (∃ st, TaskDecomposer.decompose task .noLLM parse = [st] ∧
        st.subtask = some task ∧ st.task_type = some (S "general") ∧
        st.dependencies = some [] ∧ st.priority = some 5) ∧
      (∃ st, TaskDecomposer.decompose task .raises parse = [st] ∧
        st.subtask = some task ∧ st.task_type = some (S "general") ∧
        st.dependencies = some [] ∧ st.priority = some 5) ∧
      (TaskDecomposer.hasArrayMatch content = false →
        ∃ st, TaskDecomposer.decompose task (.responds content) parse = [st] ∧
          st.subtask = some task ∧ st.task_type = some (S "general") ∧
          st.dependencies = some [] ∧ st.priority = some 5) ∧
      (parse (TaskDecomposer.extractArray content) = none →
        ∃ st, TaskDecomposer.decompose task (.responds content) parse = [st] ∧
          st.subtask = some task ∧ st.task_type = some (S "general") ∧
          st.dependencies = some [] ∧ st.priority = some 5) := by
  intro task content parse
  refine ⟨⟨_, rfl, rfl, rfl, rfl, rfl⟩, ⟨_, rfl, rfl, rfl, rfl, rfl⟩, ?_, ?_⟩
  · intro h
    have hd : TaskDecomposer.decompose task (.responds content) parse =
        [TaskDecomposer.fallback true task] := by
      simp [TaskDecomposer.decompose, h]
    exact ⟨_, hd, rfl, rfl, rfl, rfl⟩
  · intro hp
    by_cases harr : TaskDecomposer.hasArrayMatch content = true
    · have hd : TaskDecomposer.decompose task (.responds content) parse =
          [TaskDecomposer.fallback true task] := by
        simp [TaskDecomposer.decompose, harr, hp]
      exact ⟨_, hd, rfl, rfl, rfl, rfl⟩
    · have hfalse : TaskDecomposer.hasArrayMatch content = false :=
        Bool.not_eq_true _ ▸ Bool.eq_false_iff.mpr (fun hc => harr hc)
      have hd : TaskDecomposer.decompose task (.responds content) parse =
          [TaskDecomposer.fallback true task] := by
        simp [TaskDecomposer.decompose, hfalse]
      exact ⟨_, hd, rfl, rfl, rfl, rfl⟩

/-- C3 (witness): the fallback applied to a response with no JSON array
and a parser that always fails. -/
theorem claim_C3_witness :
    ∃ st, TaskDecomposer.decompose (S "reset the vpn")
        (.responds (S "no json here")) (fun _ => none) = [st] ∧
      st.subtask = some (S "reset the vpn") ∧
      st.task_type = some (S "general") ∧
      st.dependencies = some [] ∧ st.priority = some 5 :=
  (claim_C3_fallback (S "reset the vpn") (S "no json here")
    (fun _ => none)).2.2.1 (by decide)

/-- C10: the no-LLM fallback subtask has no `id` key at all, while every
other outcome of `decompose` — parsed result, parse-failure fallback,
exception fallback — gives each returned subtask an `id` equal to its
zero-based position rendered as a string, overwriting any model-supplied
id. -/
theorem claim_C10_id_assignment :
    ∀ (task content : List Char)
      (parse : List Char → Option (List TaskDecomposer.PySubtask))
      (subs : List TaskDecomposer.PySubtask),
      (∃ st, TaskDecomposer.decompose task .noLLM parse = [st] ∧ st.id = none) ∧
      (∃ st, TaskDecomposer.decompose task .raises parse = [st] ∧
        st.id = some (natStr 0)) ∧
      (TaskDecomposer.hasArrayMatch content = true →
        parse (TaskDecomposer.extractArray content) = some subs →
        (TaskDecomposer.decompose task (.responds content) parse).length =
          subs.length ∧
        (∀ (i : Nat) (st' : TaskDecomposer.PySubtask),
          (TaskDecomposer.decompose task (.responds content) parse).get? i =
            some st' → st'.id = some (natStr i))) ∧
      (parse (TaskDecomposer.extractArray content) = none →
        ∃ st, TaskDecomposer.decompose task (.responds content) parse = [st] ∧
          st.id = some (natStr 0)) := by
  intro task content parse subs
  refine ⟨⟨_, rfl, rfl⟩, ⟨_, rfl, rfl⟩, ?_, ?_⟩
  · intro harr hp
    have hd : TaskDecomposer.decompose task (.responds content) parse =
        TaskDecomposer.assignIds 0 subs := by
      simp [TaskDecomposer.decompose, harr, hp]
    refine ⟨by rw [hd]; exact assignIds_length 0 subs, ?_⟩
    intro i st' hst
    rw [hd, assignIds_get? 0 subs i] at hst
    rcases hget : subs.get? i with _ | st0
    · rw [hget] at hst
      exact absurd hst (by simp)
    · rw [hget] at hst
      simp only [Option.map_some'] at hst
      rw [← Option.some.inj hst]
      simp [Nat.zero_add]
  · intro hp
    by_cases harr : TaskDecomposer.hasArrayMatch content = true
    · have hd : TaskDecomposer.decompose task (.responds content) parse =
          [TaskDecomposer.fallback true task] := by
        simp [TaskDecomposer.decompose, harr, hp]
      exact ⟨_, hd, rfl⟩
    · have hfalse : TaskDecomposer.hasArrayMatch content = false :=
        Bool.eq_false_iff.mpr (fun hc => harr hc)
      have hd : TaskDecomposer.decompose task (.responds content) parse =
          [TaskDecomposer.fallback true task] := by
        simp [TaskDecomposer.decompose, hfalse]
      exact ⟨_, hd, rfl⟩

/-- C10 (witness): a parsed two-element result, one element carrying a
model-supplied id that gets overwritten. -/
theorem claim_C10_witness :
    (TaskDecomposer.decompose (S "t") (.responds (S "x [1] y"))
        (fun _ => some [{ id := some (S "zz"), subtask := some (S "a") },
          { subtask := some (S "b") }])).length =
      ([{ id := some (S "zz"), subtask := some (S "a") },
        { subtask := some (S "b") }] : List TaskDecomposer.PySubtask).length ∧
    ∀ (i : Nat) (st' : TaskDecomposer.PySubtask),
      (TaskDecomposer.decompose (S "t") (.responds (S "x [1] y"))
        (fun _ => some [{ id := some (S "zz"), subtask := some (S "a") },
          { subtask := some (S "b") }])).get? i = some st' →
        st'.id = some (natStr i) :=
  (claim_C10_id_assignment (S "t") (S "x [1] y")
    (fun _ => some [{ id := some (S "zz"), subtask := some (S "a") },
      { subtask := some (S "b") }])
    [{ id := some (S "zz"), subtask := some (S "a") },
      { subtask := some (S "b") }]).2.2.1 (by decide) rfl

/-- `\w+` matches any non-empty run of word characters before its
continuation. -/
theorem wordPlus_of_all {k : List Char → Bool} {name v : List Char}
    (hne : name ≠ []) (hword : ∀ c ∈ name, isWord c = true)
    (hv : k v = true) : wordPlus k (name ++ v) = true := by
  induction name with
  | nil => exact absurd rfl hne
  | cons c rest ih =>
    have hc : isWord c = true := hword c (List.mem_cons_self c rest)
    cases rest with
    | nil => simp [wordPlus, hc, hv]
    | cons d ds =>
      have ih' := ih (by simp)
        (fun x hx => hword x (List.mem_cons_of_mem c hx))
      have hstep : wordPlus k ((c :: d :: ds) ++ v) =
          (isWord c && (k ((d :: ds) ++ v) || wordPlus k ((d :: ds) ++ v))) := rfl
      rw [hstep, hc, ih']
      simp

/-- C5: `validate_script` reports an error for an empty script, for any
script containing the literal `rm -rf`, for any script containing an
unresolved placeholder of the forms `{NAME}`, `$c`, or `%NAME%` (word
characters), and — for executor type `"aws"` — for any script not
containing the substring `"aws "` (case-insensitively). -/
theorem claim_C5_validate_script :
    ∀ (script executor_type : List Char),
      (ScriptGenerator.validate_script [] executor_type ≠ []) ∧
      (isSubstr (S "rm -rf") script →
        ScriptGenerator.validate_script script executor_type ≠ []) ∧
      (∀ a name b : List Char, script = a ++ '\x7b' :: (name ++ '\x7d' :: b) →
        name ≠ [] → (∀ c ∈ name, isWord c = true) →
        ScriptGenerator.validate_script script executor_type ≠ []) ∧
      (∀ (a b : List Char) (c : Char), script = a ++ '$' :: c :: b →
        isWord c = true →
        ScriptGenerator.validate_script script executor_type ≠ []) ∧
      (∀ a name b : List Char, script = a ++ '%' :: (name ++ '%' :: b) →
        name ≠ [] → (∀ c ∈ name, isWord c = true) →
        ScriptGenerator.validate_script script executor_type ≠ []) ∧
      (executor_type = S "aws" → ¬ isSubstr (S "aws ") (lowerStr script) →
        ScriptGenerator.validate_script script executor_type ≠ []) := by
  intro script executor_type
  refine ⟨by simp [ScriptGenerator.validate_script, S], ?_, ?_, ?_, ?_, ?_⟩
  · intro hsub
    unfold ScriptGenerator.validate_script
    split
    · simp
    · have hs : search rmRfAt (lowerStr script) = true := by
        obtain ⟨a, b, rfl⟩ := hsub
        rw [lowerStr_append, lowerStr_append]
        rw [show lowerStr (S "rm -rf") = S "rm -rf" from rfl]
        rw [List.append_assoc]
        exact search_of_match (rmRfAt_starts _) _
      have hd : ScriptGenerator.dangerErrors script ≠ [] := by
        unfold ScriptGenerator.dangerErrors
        simp [ScriptGenerator.dangerous_patterns, hs]
      simp [List.append_eq_nil, hd]
  · intro a name b hscript hne hword
    unfold ScriptGenerator.validate_script
    split
    · simp
    · have hp : ScriptGenerator.hasPlaceholder script = true := by
        unfold ScriptGenerator.hasPlaceholder
        rw [hscript]
        apply search_of_match ?_ a
        have hb : bracePlaceholderAt ('\x7b' :: (name ++ '\x7d' :: b)) = true := by
          unfold bracePlaceholderAt
          exact wordPlus_of_all hne hword rfl
        simp [hb]
      simp [List.append_eq_nil, hp]
  · intro a b c hscript hc
    unfold ScriptGenerator.validate_script
    split
    · simp
    · have hp : ScriptGenerator.hasPlaceholder script = true := by
        unfold ScriptGenerator.hasPlaceholder
        rw [hscript]
        apply search_of_match ?_ a
        have hb : dollarPlaceholderAt ('$' :: c :: b) = true := hc
        simp [hb]
      simp [List.append_eq_nil, hp]
  · intro a name b hscript hne hword
    unfold ScriptGenerator.validate_script
    split
    · simp
    · have hp : ScriptGenerator.hasPlaceholder script = true := by
        unfold ScriptGenerator.hasPlaceholder
        rw [hscript]
        apply search_of_match ?_ a
        have hb : percentPlaceholderAt ('%' :: (name ++ '%' :: b)) = true := by
          unfold percentPlaceholderAt
          exact wordPlus_of_all hne hword rfl
        simp [hb]
      simp [List.append_eq_nil, hp]
  · intro het hnsub
    unfold ScriptGenerator.validate_script
    split
    · simp
    · have hc : containsSub (S "aws ") (lowerStr script) = false := by
        rcases Bool.eq_false_or_eq_true
            (containsSub (S "aws ") (lowerStr script)) with h | h
        · exact absurd ((containsSub_iff _ _).mp h) hnsub
        · exact h
      subst het
      simp [List.append_eq_nil, hc]

/-- C5 (witness): the theorem applied to a script with an unreplaced
`{USERNAME}` placeholder, a script containing `rm -rf`, and a non-AWS
script under the `"aws"` executor type. -/
theorem claim_C5_witness :
    ScriptGenerator.validate_script (S "echo {USERNAME}") (S "bash") ≠ [] ∧
    ScriptGenerator.validate_script (S "rm -rf /tmp") (S "bash") ≠ [] ∧
    ScriptGenerator.validate_script (S "ls -la") (S "aws") ≠ [] :=
  ⟨(claim_C5_validate_script (S "echo {USERNAME}") (S "bash")).2.2.1
      (S "echo ") (S "USERNAME") [] (by decide) (by decide) (by decide),
    (claim_C5_validate_script (S "rm -rf /tmp") (S "bash")).2.1
      ⟨[], S " /tmp", by decide⟩,
    (claim_C5_validate_script (S "ls -la") (S "aws")).2.2.2.2.2 rfl
      (fun h => absurd ((containsSub_iff _ _).mpr h) (by decide))⟩

/-- Counting invariant of the bulk-import loop: each conforming item adds
one imported id, each non-conforming item adds one error message. -/
theorem bulkGo_counts (idSupply : Nat → List Char) :
    ∀ (items : List InstructionManager.ImportItem) (idx : Nat)
      (st : InstructionManager.BulkState),
      ((InstructionManager.bulkGo idSupply idx st items).imported.length =
        st.imported.length + items.countP (fun i => InstructionManager.conforms i)) ∧
      ((InstructionManager.bulkGo idSupply idx st items).errors.length =
        st.errors.length + items.countP (fun i => !InstructionManager.conforms i)) := by
  intro items
  induction items with
  | nil => intro idx st; simp [InstructionManager.bulkGo]
  | cons it rest ih =>
    intro idx st
    have h1 := ih (idx + 1) (InstructionManager.processItem idSupply idx st it)
    have hstep : InstructionManager.bulkGo idSupply idx st (it :: rest) =
        InstructionManager.bulkGo idSupply (idx + 1)
          (InstructionManager.processItem idSupply idx st it) rest := rfl
    rcases it with _ | ⟨tt, itx, md⟩
    · refine ⟨?_, ?_⟩
      · rw [hstep, h1.1]
        simp [InstructionManager.processItem, InstructionManager.conforms,
          List.countP_cons]
      · rw [hstep, h1.2]
        simp [InstructionManager.processItem, InstructionManager.conforms,
          List.countP_cons]
        omega
    · by_cases hc : (InstructionStore.truthyStr tt &&
          InstructionStore.truthyStr itx) = true
      · obtain ⟨ha, hb⟩ := Bool.and_eq_true_iff.mp hc
        refine ⟨?_, ?_⟩
        · rw [hstep, h1.1]
          simp [InstructionManager.processItem, InstructionManager.conforms,
            List.countP_cons, ha, hb]
          omega
        · rw [hstep, h1.2]
          simp [InstructionManager.processItem, InstructionManager.conforms,
            List.countP_cons, ha, hb]
      · have hcf : (InstructionStore.truthyStr tt &&
            InstructionStore.truthyStr itx) = false :=
          Bool.eq_false_iff.mpr (fun h => hc h)
        have hcond : (!InstructionStore.truthyStr tt ||
            !InstructionStore.truthyStr itx) = true := by
          rw [← Bool.not_and, hcf]
          rfl
        refine ⟨?_, ?_⟩
        · rw [hstep, h1.1]
          simp [InstructionManager.processItem, InstructionManager.conforms,
            List.countP_cons, hcond, hcf]
        · rw [hstep, h1.2]
          simp [InstructionManager.processItem, InstructionManager.conforms,
            List.countP_cons, hcond, hcf]
          omega

/-- C6 (counterexample): bulk import calls the store directly, so an item
whose `instruction_text` is only 5 characters long (well under the
10-character minimum of the file format) is imported successfully with no
error recorded. -/
theorem claim_C6_counterexample :
    InstructionManager.bulk_import_from_file natStr []
        (.listData [.obj (some (S "bulk_test")) (some (S "short")) none]) =
      .ok ({ success := true, imported_count := 1, error_count := 0,
             imported_ids := [natStr 0], errors := [] },
           [{ id := natStr 0, doc := S "short",
              meta := [(S "task_type", S "bulk_test")] }]) ∧
    (stripPy (S "short")).length < 10 :=
  ⟨rfl, by decide⟩

/-- C6 (amended): a bulk-import item is imported exactly when it is a JSON
object whose `task_type` and `instruction_text` are present and truthy
(the 10-character minimum of `add_instruction` is not applied on this
path); every other item is counted in `error_count` and contributes
nothing to `imported_count`; a file with one object missing
`instruction_text` reports `error_count = 1` and `imported_count = 0`. -/
theorem claim_C6_amended :
    ∀ (idSupply : Nat → List Char) (col : InstructionStore.Collection)
      (items : List InstructionManager.ImportItem),
      (∃ r rcol, InstructionManager.bulk_import_from_file idSupply col
          (.listData items) = .ok (r, rcol) ∧
        r.imported_count = items.countP (fun i => InstructionManager.conforms i) ∧
        r.error_count = items.countP (fun i => !InstructionManager.conforms i) ∧
        r.imported_count + r.error_count = items.length ∧
        r.success = decide (r.error_count = 0)) ∧
      (∃ r rcol, InstructionManager.bulk_import_from_file idSupply col
          (.objData (.obj (some (S "password_reset")) none none)) =
            .ok (r, rcol) ∧
        r.error_count = 1 ∧ r.imported_count = 0) := by
  intro idSupply col items
  constructor
  · have hc := bulkGo_counts idSupply items 0 ⟨[], [], 0, col⟩
    refine ⟨_, _, rfl, ?_, ?_, ?_, ?_⟩
    · simpa using hc.1
    · simpa using hc.2
    · have himp : (InstructionManager.bulkGo idSupply 0 ⟨[], [], 0, col⟩
          items).imported.length =
            items.countP (fun i => InstructionManager.conforms i) := by
        simpa using hc.1
      have herr : (InstructionManager.bulkGo idSupply 0 ⟨[], [], 0, col⟩
          items).errors.length =
            items.countP (fun i => !InstructionManager.conforms i) := by
        simpa using hc.2
      show (InstructionManager.bulkGo idSupply 0 ⟨[], [], 0, col⟩
          items).imported.length +
        (InstructionManager.bulkGo idSupply 0 ⟨[], [], 0, col⟩
          items).errors.length = items.length
      have hpred : (fun i => !InstructionManager.conforms i) =
          (fun a => decide ¬(InstructionManager.conforms a = true)) := by
        funext a
        cases InstructionManager.conforms a <;> rfl
      rw [himp, herr, hpred]
      exact (List.length_eq_countP_add_countP
        (fun i => InstructionManager.conforms i) items).symm
    · show (InstructionManager.bulkGo idSupply 0 ⟨[], [], 0, col⟩
          items).errors.isEmpty = _
      rcases (InstructionManager.bulkGo idSupply 0 ⟨[], [], 0, col⟩
          items).errors with _ | ⟨e, es⟩ <;> simp
  · exact ⟨_, _, rfl, rfl, rfl⟩

/-- Python's `{**old, **new}` merge, observed through `lookup`: keys of
`new` win, keys only in `old` fall back to `old`. -/
theorem lookup_pyMerge (old new : InstructionStore.Meta) (k : List Char) :
    List.lookup k (InstructionStore.pyMerge old new) =
      (List.lookup k new).orElse (fun _ => List.lookup k old) := by
  induction old with
  | nil =>
    cases h : List.lookup k new <;>
      simp [InstructionStore.pyMerge, h, Option.orElse]
  | cons p old ih =>
    obtain ⟨k1, v1⟩ := p
    by_cases hn : (List.lookup k1 new).isSome = true
    · obtain ⟨w, hw⟩ := Option.isSome_iff_exists.mp hn
      have hni : (List.lookup k1 new).isNone = false := by simp [hw]
      have hfilter : InstructionStore.pyMerge ((k1, v1) :: old) new =
          InstructionStore.pyMerge old new := by
        simp [InstructionStore.pyMerge, List.filter_cons, hni]
      rw [hfilter, ih]
      by_cases hk : (k == k1) = true
      · have hkk : k = k1 := beq_iff_eq.mp hk
        subst hkk
        simp [List.lookup, hw, Option.orElse]
      · simp [List.lookup, hk]
    · have hnone : List.lookup k1 new = none :=
        Option.not_isSome_iff_eq_none.mp hn
      have hfilter : InstructionStore.pyMerge ((k1, v1) :: old) new =
          (k1, v1) :: InstructionStore.pyMerge old new := by
        simp [InstructionStore.pyMerge, List.filter_cons, hnone]
      rw [hfilter]
      by_cases hk : (k == k1) = true
      · have hkk : k = k1 := beq_iff_eq.mp hk
        subst hkk
        simp [List.lookup, hnone, Option.orElse]
      · simp [List.lookup, hk, ih]

/-- Updating a record through `colUpdate` is visible through
`get_instruction_by_id` as a field-wise replacement of the found record. -/
theorem get_colUpdate (col : InstructionStore.Collection) (iid : List Char)
    (nd : Option (List Char)) (nm : Option InstructionStore.Meta) :
    InstructionStore.get_instruction_by_id
        (InstructionStore.colUpdate col iid nd nm) iid =
      (InstructionStore.get_instruction_by_id col iid).map
        (fun e => { e with doc := nd.getD e.doc, meta := nm.getD e.meta }) := by
  unfold InstructionStore.get_instruction_by_id InstructionStore.colUpdate
  rw [List.find?_map]
  have hpred : ((fun e : InstructionStore.ChromaEntry => e.id == iid) ∘
      (fun e => if (e.id == iid) = true then
        { e with doc := nd.getD e.doc, meta := nm.getD e.meta } else e)) =
      (fun e : InstructionStore.ChromaEntry => e.id == iid) := by
    funext e
    by_cases h : (e.id == iid) = true <;> simp [Function.comp, h]
  rw [hpred]
  cases hfind : List.find? (fun e : InstructionStore.ChromaEntry => e.id == iid) col with
  | none => rfl
  | some e =>
    have hp := List.find?_some hfind
    simp [hp]
    intro hne
    exact absurd (beq_iff_eq.mp hp) hne

/-- Records whose id differs from the updated id are untouched by
`colUpdate`. -/
theorem mem_colUpdate_of_ne (col : InstructionStore.Collection)
    (iid : List Char) (nd : Option (List Char))
    (nm : Option InstructionStore.Meta) {x : InstructionStore.ChromaEntry}
    (hx : x ∈ col) (hne : ¬ x.id = iid) :
    x ∈ InstructionStore.colUpdate col iid nd nm := by
  unfold InstructionStore.colUpdate
  have hbeq : (x.id == iid) = false := beq_eq_false_iff_ne.mpr hne
  have : (fun e => if e.id == iid then
      { e with doc := nd.getD e.doc, meta := nm.getD e.meta } else e) x = x := by
    simp [hbeq]
  rw [← this]
  exact List.mem_map_of_mem _ hx

/-- C8: `update_instruction` is a merge-replace.  An unknown id returns
`False` and leaves the collection unchanged; a known id returns `True`;
supplying only metadata leaves the text unchanged and replaces the
metadata by the key-wise merge of old and supplied (supplied keys win, as
the `lookup` law states); supplying only text replaces the text and leaves
the metadata unchanged; records with other ids are untouched. -/
theorem claim_C8_update_instruction :
    ∀ (col : InstructionStore.Collection) (iid : List Char)
      (targ : Option (List Char)) (marg : Option InstructionStore.Meta),
      (InstructionStore.get_instruction_by_id col iid = none →
        InstructionStore.update_instruction col iid targ marg = (false, col)) ∧
      (∀ e, InstructionStore.get_instruction_by_id col iid = some e →
        (InstructionStore.update_instruction col iid targ marg).1 = true) ∧
      (∀ old new k, List.lookup k (InstructionStore.pyMerge old new) =
        (List.lookup k new).orElse (fun _ => List.lookup k old)) ∧
      (∀ e m', InstructionStore.get_instruction_by_id col iid = some e →
        InstructionStore.truthyStr targ = false → ¬ m' = [] →
        InstructionStore.get_instruction_by_id
            (InstructionStore.update_instruction col iid targ (some m')).2 iid =
          some { e with meta := InstructionStore.pyMerge e.meta m' } ∧
        (∀ x ∈ col, ¬ x.id = iid →
          x ∈ (InstructionStore.update_instruction col iid targ (some m')).2)) ∧
      (∀ e t, InstructionStore.get_instruction_by_id col iid = some e →
        InstructionStore.truthyMeta marg = false → ¬ t = [] →
        InstructionStore.get_instruction_by_id
            (InstructionStore.update_instruction col iid (some t) marg).2 iid =
          some { e with doc := t } ∧
        (∀ x ∈ col, ¬ x.id = iid →
          x ∈ (InstructionStore.update_instruction col iid (some t) marg).2)) := by
  intro col iid targ marg
  refine ⟨?_, ?_, lookup_pyMerge, ?_, ?_⟩
  · intro h
    unfold InstructionStore.update_instruction
    rw [h]
  · intro e he
    unfold InstructionStore.update_instruction
    rw [he]
    dsimp only
    repeat' split
    all_goals rfl
  · intro e m' he ht hm
    have hmt : InstructionStore.truthyMeta (some m') = true := by
      simp [InstructionStore.truthyMeta, List.isEmpty_iff, hm]
    have hupd : (InstructionStore.update_instruction col iid targ (some m')).2 =
        InstructionStore.colUpdate col iid none
          (some (InstructionStore.pyMerge e.meta m')) := by
      unfold InstructionStore.update_instruction
      rw [he]
      simp [ht, hmt]
    refine ⟨?_, ?_⟩
    · rw [hupd, get_colUpdate, he]
      simp
    · intro x hx hne
      rw [hupd]
      exact mem_colUpdate_of_ne col iid _ _ hx hne
  · intro e t he hm ht
    have htt : InstructionStore.truthyStr (some t) = true := by
      simp [InstructionStore.truthyStr, List.isEmpty_iff, ht]
    have hupd : (InstructionStore.update_instruction col iid (some t) marg).2 =
        InstructionStore.colUpdate col iid (some t) none := by
      unfold InstructionStore.update_instruction
      rw [he]
      simp [htt, hm]
    refine ⟨?_, ?_⟩
    · rw [hupd, get_colUpdate, he]
      simp
    · intro x hx hne
      rw [hupd]
      exact mem_colUpdate_of_ne col iid _ _ hx hne

/-- C8 (witness): on a concrete one-record store — an unknown id returns
`False` with the store unchanged, and a metadata-only update of the known
id merges the supplied keys over the stored metadata without touching the
text. -/
theorem claim_C8_witness :
    InstructionStore.update_instruction InstructionStore.sampleCol (S "i2")
        none (some [(S "platform", S "k8s")]) =
      (false, InstructionStore.sampleCol) ∧
    InstructionStore.get_instruction_by_id
        (InstructionStore.update_instruction InstructionStore.sampleCol
          (S "i1") none (some [(S "platform", S "k8s")])).2 (S "i1") =
      some { id := S "i1", doc := S "old text",
             meta := InstructionStore.pyMerge
               [(S "task_type", S "t"), (S "platform", S "aws")]
               [(S "platform", S "k8s")] } :=
  ⟨(claim_C8_update_instruction InstructionStore.sampleCol (S "i2") none
      (some [(S "platform", S "k8s")])).1 (by decide),
    ((claim_C8_update_instruction InstructionStore.sampleCol (S "i1") none
        (some [(S "platform", S "k8s")])).2.2.2.1
      { id := S "i1", doc := S "old text",
        meta := [(S "task_type", S "t"), (S "platform", S "aws")] }
      [(S "platform", S "k8s")] (by decide) rfl (by decide)).1⟩

/-- Equal plan keys are related by `keyGe`. -/
theorem keyGe_of_planKey_eq {a b : TaskDecomposer.PySubtask}
    (h : TaskDecomposer.planKey a = TaskDecomposer.planKey b) :
    TaskDecomposer.keyGe a b :=
  Or.inr ⟨congrArg Prod.fst h, le_of_eq (congrArg Prod.snd h.symm)⟩

/-- An element strictly preceding another in the descending order has a
different plan key. -/
theorem planKey_ne_of_not_keyGe {a b : TaskDecomposer.PySubtask}
    (h : ¬ TaskDecomposer.keyGe a b) :
    ¬ TaskDecomposer.planKey a = TaskDecomposer.planKey b :=
  fun he => h (keyGe_of_planKey_eq he)

/-- Inserting into a list moves `a` past only elements with strictly
greater keys, so the sublist of any fixed key `k` gains `a` at the front
exactly when `a` has key `k`. -/
theorem filter_orderedInsert (k : Int × Nat) (a : TaskDecomposer.PySubtask) :
    ∀ m : List TaskDecomposer.PySubtask,
      (List.orderedInsert TaskDecomposer.keyGe a m).filter
          (fun x => TaskDecomposer.planKey x == k) =
        if (TaskDecomposer.planKey a == k) = true then
          a :: m.filter (fun x => TaskDecomposer.planKey x == k)
        else m.filter (fun x => TaskDecomposer.planKey x == k) := by
  intro m
  induction m with
  | nil =>
    by_cases hk : (TaskDecomposer.planKey a == k) = true <;>
      simp [List.orderedInsert, List.filter, hk]
  | cons b bs ih =>
    by_cases hr : TaskDecomposer.keyGe a b
    · simp only [List.orderedInsert, if_pos hr, List.filter_cons]
    · simp only [List.orderedInsert, if_neg hr, List.filter_cons]
      have hne := planKey_ne_of_not_keyGe hr
      by_cases hk : (TaskDecomposer.planKey a == k) = true
      · have hak := beq_iff_eq.mp hk
        have hbk : (TaskDecomposer.planKey b == k) = false := by
          apply beq_eq_false_iff_ne.mpr
          intro hbe
          exact hne (by rw [hak, hbe])
        simp [hk, hbk, ih]
      · have hkf : (TaskDecomposer.planKey a == k) = false :=
          Bool.eq_false_iff.mpr hk
        by_cases hbk : (TaskDecomposer.planKey b == k) = true <;>
          simp [hbk, ih, hkf]

/-- Stability of the descending sort, phrased through filters: the
subsequence of any fixed key is exactly the input subsequence of that
key. -/
theorem filter_insertionSort (k : Int × Nat) :
    ∀ l : List TaskDecomposer.PySubtask,
      (List.insertionSort TaskDecomposer.keyGe l).filter
          (fun x => TaskDecomposer.planKey x == k) =
        l.filter (fun x => TaskDecomposer.planKey x == k) := by
  intro l
  induction l with
  | nil => rfl
  | cons a l ih =>
    simp only [List.insertionSort]
    rw [filter_orderedInsert]
    by_cases hk : (TaskDecomposer.planKey a == k) = true <;>
      simp [hk, ih, List.filter_cons]

/-- The `order` fields produced by the plan loop are consecutive 1-based
positions. -/
theorem buildPlan_map_order {α : Type} (imap : List (List Char × List α)) :
    ∀ (l : List TaskDecomposer.PySubtask) (start : Nat),
      (TaskDecomposer.buildPlan imap start l).map (fun s => s.order) =
        List.range' (start + 1) l.length := by
  intro l
  induction l with
  | nil => intro start; rfl
  | cons st rest ih =>
    intro start
    simp [TaskDecomposer.buildPlan, ih (start + 1), List.range'_succ,
      Nat.add_assoc]

/-- The plan steps carry exactly the sorted subtasks, in order. -/
theorem buildPlan_map_subtask {α : Type} (imap : List (List Char × List α)) :
    ∀ (l : List TaskDecomposer.PySubtask) (start : Nat),
      (TaskDecomposer.buildPlan imap start l).map (fun s => s.subtask) = l := by
  intro l
  induction l with
  | nil => intro start; rfl
  | cons st rest ih =>
    intro start
    simp [TaskDecomposer.buildPlan, ih (start + 1)]

/-- C4: `create_execution_plan` assigns 1-based consecutive `order`
fields; its steps carry a permutation of the input subtasks, sorted
descending by `(priority, dependency count)` and stable (the subsequence
of each key equals the input subsequence); priorities `[8,3,9]` come out
as `[9,8,3]` for every input order; equal keys keep input order; and a
declared dependency imposes no ordering — a step may precede the step it
depends on. -/
theorem claim_C4_execution_plan :
    (∀ (α : Type) (imap : List (List Char × List α))
      (subtasks : List TaskDecomposer.PySubtask),
      ((TaskDecomposer.create_execution_plan subtasks imap).map
          (fun s => s.order) = List.range' 1 subtasks.length) ∧
      (((TaskDecomposer.create_execution_plan subtasks imap).map
          (fun s => s.subtask)).Perm subtasks) ∧
      (((TaskDecomposer.create_execution_plan subtasks imap).map
          (fun s => s.subtask)).Pairwise TaskDecomposer.keyGe) ∧
      (∀ k, ((TaskDecomposer.create_execution_plan subtasks imap).map
          (fun s => s.subtask)).filter
            (fun x => TaskDecomposer.planKey x == k) =
        subtasks.filter (fun x => TaskDecomposer.planKey x == k))) ∧
    (TaskDecomposer.planPriorities
        [TaskDecomposer.subtask8, TaskDecomposer.subtask3,
          TaskDecomposer.subtask9] = [some 9, some 8, some 3] ∧
      TaskDecomposer.planPriorities
        [TaskDecomposer.subtask8, TaskDecomposer.subtask9,
          TaskDecomposer.subtask3] = [some 9, some 8, some 3] ∧
      TaskDecomposer.planPriorities
        [TaskDecomposer.subtask3, TaskDecomposer.subtask8,
          TaskDecomposer.subtask9] = [some 9, some 8, some 3] ∧
      TaskDecomposer.planPriorities
        [TaskDecomposer.subtask3, TaskDecomposer.subtask9,
          TaskDecomposer.subtask8] = [some 9, some 8, some 3] ∧
      TaskDecomposer.planPriorities
        [TaskDecomposer.subtask9, TaskDecomposer.subtask8,
          TaskDecomposer.subtask3] = [some 9, some 8, some 3] ∧
      TaskDecomposer.planPriorities
        [TaskDecomposer.subtask9, TaskDecomposer.subtask3,
          TaskDecomposer.subtask8] = [some 9, some 8, some 3]) ∧
    ((TaskDecomposer.create_execution_plan
        [TaskDecomposer.tieFirst, TaskDecomposer.tieSecond]
        TaskDecomposer.emptyImap).map (fun s => s.subtask) =
      [TaskDecomposer.tieFirst, TaskDecomposer.tieSecond]) ∧
    ((TaskDecomposer.create_execution_plan
        [TaskDecomposer.depLow, TaskDecomposer.depHigh]
        TaskDecomposer.emptyImap).map (fun s => s.step_id) =
        [S "f", S "g"] ∧
      TaskDecomposer.depHigh.dependencies = some [S "g"] ∧
      TaskDecomposer.depLow.id = some (S "g")) := by
  refine ⟨?_, by decide, by decide, by decide⟩
  intro α imap subtasks
  have hlen := List.Perm.length_eq
    (List.perm_insertionSort TaskDecomposer.keyGe subtasks)
  refine ⟨?_, ?_, ?_, ?_⟩
  · unfold TaskDecomposer.create_execution_plan
    rw [buildPlan_map_order, hlen]
  · unfold TaskDecomposer.create_execution_plan
    rw [buildPlan_map_subtask]
    exact List.perm_insertionSort _ _
  · unfold TaskDecomposer.create_execution_plan
    rw [buildPlan_map_subtask]
    exact List.sorted_insertionSort TaskDecomposer.keyGe subtasks
  · intro k
    unfold TaskDecomposer.create_execution_plan
    rw [buildPlan_map_subtask]
    exact filter_insertionSort k subtasks

end ITOps

